import Mathlib

/-!
Verification of the TM1638 LED/keypad driver (TM1638.c, TM1638.h).

The driver is shallowly embedded: the device handle keeps only the
brightness field (the three GPIO pin references are opaque handles of the
host platform and are never inspected by the driver logic), bus output is
modelled as the list of strobe-framed byte sequences an operation
transmits, and the two bus inputs (the 32-bit raw key-scan word and the
captured key mask of the blocking reader) are explicit parameters.
Machine integers are Nat, except the int8_t string index arithmetic of
the text layout routine, which is modelled exactly with wrapping.
-/

/-- Command byte 0x40: write data to display register, auto-increment address. -/
def CMD_DATA_SET_AUTO_INC : Nat := 0x40

/-- Command byte 0x42: read key scan data. -/
def CMD_DATA_READ : Nat := 0x42

/-- Command byte 0xC0: display address marker, OR-ed with the register number. -/
def CMD_ADDRESS_SET : Nat := 0xC0

/-- Command byte 0x80: display control marker. -/
def CMD_DISPLAY_CTRL : Nat := 0x80

/-- Bit 0x08 of a display-control command: display on. -/
def DISPLAY_ON_MASK : Nat := 0x08

/-- Mask 0x07 applied to brightness values on the init path. -/
def DISPLAY_BRIGHTNESS_MASK : Nat := 0x07

/-- Device handle of one TM1638 module.  The C struct also carries the
three GPIO port/pin references (clk, dio, stb); those are opaque platform
handles never read by the driver logic, so the embedding keeps only the
brightness field, the one mutable piece of driver state. -/
structure TM1638 where
  brightness : Nat

/-- Embedding of tm1638_set_brightness: clamps the argument to 7, stores it
in the handle, and transmits one single-byte frame holding the
display-control command. -/
def tm1638_set_brightness (tm : TM1638) (brightness : Nat) : TM1638 × List (List Nat) :=
  let b := if brightness > 7 then 7 else brightness
  let command := CMD_DISPLAY_CTRL ||| DISPLAY_ON_MASK ||| b
  ({ tm with brightness := b }, [[command]])

/-- Embedding of tm1638_display_clear: one single-byte frame with the
auto-increment mode command, then one frame holding the address-set byte
for register 0 followed by sixteen zero data bytes. -/
def tm1638_display_clear (tm : TM1638) : TM1638 × List (List Nat) :=
  (tm, [[CMD_DATA_SET_AUTO_INC], CMD_ADDRESS_SET :: List.replicate 16 0])

/-- Embedding of tm1638_init: stores the brightness masked with 0x07, then
performs a display clear followed by a set-brightness with the stored
value. -/
def tm1638_init (tm : TM1638) (brightness : Nat) : TM1638 × List (List Nat) :=
  let tm1 : TM1638 := { tm with brightness := brightness &&& DISPLAY_BRIGHTNESS_MASK }
  let r1 := tm1638_display_clear tm1
  let r2 := tm1638_set_brightness r1.1 tm1.brightness
  (r2.1, r1.2 ++ r2.2)

/-- Embedding of char_to_segment_code: the full character switch of the C
source; unsupported characters map to the blank pattern 0x00. -/
def char_to_segment_code (c : Char) : Nat :=
  match c with
  | '0' => 0x3f
  | '1' => 0x06
  | '2' => 0x5b
  | '3' => 0x4f
  | '4' => 0x66
  | '5' => 0x6d
  | '6' => 0x7d
  | '7' => 0x07
  | '8' => 0x7f
  | '9' => 0x6f
  | 'A' => 0x77
  | 'B' => 0x7f
  | 'C' => 0x39
  | 'D' => 0x3f
  | 'E' => 0x79
  | 'F' => 0x71
  | 'G' => 0x7d
  | 'H' => 0x76
  | 'I' => 0x06
  | 'J' => 0x0e
  | 'L' => 0x38
  | 'O' => 0x3f
  | 'P' => 0x73
  | 'S' => 0x6d
  | 'U' => 0x3e
  | 'a' => 0x5f
  | 'b' => 0x7c
  | 'c' => 0x58
  | 'd' => 0x5e
  | 'f' => 0x71
  | 'g' => 0x6f
  | 'h' => 0x74
  | 'i' => 0x04
  | 'n' => 0x54
  | 'o' => 0x5c
  | 'r' => 0x50
  | 't' => 0x78
  | 'u' => 0x1c
  | 'y' => 0x6e
  | ' ' => 0x00
  | '_' => 0x08
  | '-' => 0x40
  | _ => 0x00

/-- Segment register address computed by tm1638_set_segment: even registers
hold segment data. -/
def tm1638_segment_address (position : Nat) : Nat :=
  CMD_ADDRESS_SET + 2 * (position - 1)

/-- LED register address computed by tm1638_set_led: odd registers hold LED
state. -/
def tm1638_led_address (position : Nat) : Nat :=
  CMD_ADDRESS_SET + 2 * position - 1

/-- Embedding of tm1638_set_segment: silently does nothing for a position
outside 1..8, otherwise transmits one frame of the address byte followed by
the raw segment data byte. -/
def tm1638_set_segment (tm : TM1638) (position : Nat) (data : Nat) : TM1638 × List (List Nat) :=
  if position < 1 ∨ position > 8 then (tm, [])
  else (tm, [[tm1638_segment_address position, data]])

/-- Embedding of tm1638_set_led: silently does nothing for a position
outside 1..8, otherwise transmits one frame of the address byte followed by
0x01 or 0x00. -/
def tm1638_set_led (tm : TM1638) (position : Nat) (is_on : Bool) : TM1638 × List (List Nat) :=
  if position < 1 ∨ position > 8 then (tm, [])
  else (tm, [[tm1638_led_address position, if is_on then 1 else 0]])

/-- Embedding of tm1638_display_char: rejects positions outside 1..8,
encodes the character, ORs in bit 0x80 when the dot flag is set, and
delegates to tm1638_set_segment. -/
def tm1638_display_char (tm : TM1638) (position : Nat) (c : Char) (dot : Bool) :
    TM1638 × List (List Nat) :=
  if position < 1 ∨ position > 8 then (tm, [])
  else
    let hex_code := char_to_segment_code c
    let hex_code := if dot then hex_code ||| 0x80 else hex_code
    tm1638_set_segment tm position hex_code

/-- Loop body of tm1638_display_txt: walks the string characters from last
to first (the list argument is the reversed remaining input), with the
display buffer, the dot flag array, and the int8_t buffer index exactly as
in the C source. -/
def txtLoop : List Char → List Char → List Bool → Int → List Char × List Bool
  | [], buf, dots, _ => (buf, dots)
  | c :: rest, buf, dots, buf_idx =>
    if buf_idx < 0 then (buf, dots)
    else if c = '.' then
      txtLoop rest buf (if buf_idx < 7 then dots.set (buf_idx + 1).toNat true else dots) buf_idx
    else
      txtLoop rest (buf.set buf_idx.toNat c) dots (buf_idx - 1)

/-- Two's-complement conversion of an integer to the int8_t range -128..127,
modelling the implementation-defined (wrapping on the target ARM/GCC
platform) narrowing conversions in tm1638_display_txt. -/
def int8_wrap (x : Int) : Int :=
  if x % 256 ≥ 128 then x % 256 - 256 else x % 256

/-- Layout phase of tm1638_display_txt: computes the 8 display characters
and the 8 dot flags.  The string length is narrowed to int8_t exactly as
the C assignment int8_t len = strlen(str) does, so strings of 129 or more
characters start with a negative (or short) index.  When the initial string
index is non-negative the loop reads characters from that index down to 0. -/
def tm1638_display_txt_layout (s : List Char) : List Char × List Bool :=
  let len : Int := int8_wrap (s.length : Int)
  let str_idx : Int := int8_wrap (len - 1)
  if str_idx < 0 then (List.replicate 8 ' ', List.replicate 8 false)
  else txtLoop ((s.take (str_idx.toNat + 1)).reverse) (List.replicate 8 ' ')
    (List.replicate 8 false) 7

/-- Embedding of tm1638_display_txt: lays the string out and issues one
display-char call per cell, positions 1 to 8. -/
def tm1638_display_txt (tm : TM1638) (s : List Char) : TM1638 × List (List Nat) :=
  let bd := tm1638_display_txt_layout s
  (tm, (List.range 8).flatMap
    (fun i => (tm1638_display_char tm (i + 1) (bd.1.getD i ' ') (bd.2.getD i false)).2))

/-- Decode step of tm1638_scan_buttons: folds the 32-bit raw key word into
the 8-bit pressed-key mask using the fixed bit positions of the chip's
key-scan matrix, in the exact order of the C source. -/
def tm1638_scan_decode (raw : Nat) : Nat :=
  let pressed_keys : Nat := 0
  let pressed_keys := if raw &&& (1 <<< 1) ≠ 0 then pressed_keys ||| (1 <<< 0) else pressed_keys
  let pressed_keys := if raw &&& (1 <<< 9) ≠ 0 then pressed_keys ||| (1 <<< 1) else pressed_keys
  let pressed_keys := if raw &&& (1 <<< 17) ≠ 0 then pressed_keys ||| (1 <<< 2) else pressed_keys
  let pressed_keys := if raw &&& (1 <<< 25) ≠ 0 then pressed_keys ||| (1 <<< 3) else pressed_keys
  let pressed_keys := if raw &&& (1 <<< 5) ≠ 0 then pressed_keys ||| (1 <<< 4) else pressed_keys
  let pressed_keys := if raw &&& (1 <<< 13) ≠ 0 then pressed_keys ||| (1 <<< 5) else pressed_keys
  let pressed_keys := if raw &&& (1 <<< 21) ≠ 0 then pressed_keys ||| (1 <<< 6) else pressed_keys
  let pressed_keys := if raw &&& (1 <<< 29) ≠ 0 then pressed_keys ||| (1 <<< 7) else pressed_keys
  pressed_keys

/-- Embedding of tm1638_scan_buttons: the raw argument is the 32-bit word
sampled from the bus during the read transaction (an environment input);
the function decodes it and leaves the handle untouched. -/
def tm1638_scan_buttons (tm : TM1638) (raw : Nat) : TM1638 × Nat :=
  (tm, tm1638_scan_decode raw)

/-- Conversion loop at the end of tm1638_read_key_blocking: for i from the
given start for the given number of remaining iterations, return i+1 at the
first set bit of the mask, else 0 after the loop. -/
def tm1638_key_loop (buttons : Nat) : Nat → Nat → Nat
  | _, 0 => 0
  | i, fuel + 1 =>
    if (buttons >>> i) &&& 1 ≠ 0 then i + 1 else tm1638_key_loop buttons (i + 1) fuel

/-- Bitmask-to-key-number conversion of tm1638_read_key_blocking: the loop
over i = 0..7. -/
def tm1638_key_convert (buttons : Nat) : Nat :=
  tm1638_key_loop buttons 0 8

/-- Embedding of tm1638_read_key_blocking: the buttons argument is the scan
mask captured when the press-detection polling loop exits (that loop exits
only on a non-zero mask); the function converts it to a key number and
leaves the handle untouched. -/
def tm1638_read_key_blocking (tm : TM1638) (buttons : Nat) : TM1638 × Nat :=
  (tm, tm1638_key_convert buttons)

/-- Raw bit positions of keys S1..S8 inside the 32-bit key-scan word, in
result-bit order: result bit i corresponds to raw bit keyPositions[i]. -/
def keyPositions : List Nat := [1, 9, 17, 25, 5, 13, 21, 29]

/-- Boolean abstraction of the scan decode: the same fold, taking the eight
designated raw bits as booleans. -/
def decodeBits (b0 b1 b2 b3 b4 b5 b6 b7 : Bool) : Nat :=
  let pressed_keys : Nat := 0
  let pressed_keys := if b0 then pressed_keys ||| (1 <<< 0) else pressed_keys
  let pressed_keys := if b1 then pressed_keys ||| (1 <<< 1) else pressed_keys
  let pressed_keys := if b2 then pressed_keys ||| (1 <<< 2) else pressed_keys
  let pressed_keys := if b3 then pressed_keys ||| (1 <<< 3) else pressed_keys
  let pressed_keys := if b4 then pressed_keys ||| (1 <<< 4) else pressed_keys
  let pressed_keys := if b5 then pressed_keys ||| (1 <<< 5) else pressed_keys
  let pressed_keys := if b6 then pressed_keys ||| (1 <<< 6) else pressed_keys
  let pressed_keys := if b7 then pressed_keys ||| (1 <<< 7) else pressed_keys
  pressed_keys

theorem and_shift_ne_iff (raw k : Nat) : raw &&& (1 <<< k) ≠ 0 ↔ raw.testBit k = true := by
  rw [Nat.one_shiftLeft]
  constructor
  · intro h
    by_contra hb
    apply h
    apply Nat.eq_of_testBit_eq
    intro i
    rw [Nat.testBit_and, Nat.zero_testBit]
    rcases eq_or_ne k i with rfl | hne
    · rw [Bool.not_eq_true] at hb
      rw [hb, Bool.false_and]
    · rw [Nat.testBit_two_pow_of_ne hne, Bool.and_false]
  · intro h h0
    have h2 : (raw &&& 2 ^ k).testBit k = true := by
      rw [Nat.testBit_and, h, Nat.testBit_two_pow_self, Bool.and_true]
    rw [h0, Nat.zero_testBit] at h2
    exact Bool.false_ne_true h2

theorem decode_eq (raw : Nat) :
    tm1638_scan_decode raw = decodeBits (raw.testBit 1) (raw.testBit 9) (raw.testBit 17)
      (raw.testBit 25) (raw.testBit 5) (raw.testBit 13) (raw.testBit 21) (raw.testBit 29) := by
  simp only [tm1638_scan_decode, decodeBits, and_shift_ne_iff]

theorem decodeBits_testBit (i : Nat) (hi : i < 8) (b0 b1 b2 b3 b4 b5 b6 b7 : Bool) :
    (decodeBits b0 b1 b2 b3 b4 b5 b6 b7).testBit i =
      [b0, b1, b2, b3, b4, b5, b6, b7].getD i false := by
  interval_cases i <;> (revert b0 b1 b2 b3 b4 b5 b6 b7; decide)

theorem scan_decode_testBit (raw i : Nat) (hi : i < 8) :
    (tm1638_scan_decode raw).testBit i = raw.testBit (keyPositions.getD i 0) := by
  rw [decode_eq, decodeBits_testBit i hi]
  interval_cases i <;> rfl

theorem scan_decode_flip (raw j : Nat) (hj : j ∉ keyPositions) :
    tm1638_scan_decode (raw ^^^ (1 <<< j)) = tm1638_scan_decode raw := by
  have hns : j ≠ 1 ∧ j ≠ 9 ∧ j ≠ 17 ∧ j ≠ 25 ∧ j ≠ 5 ∧ j ≠ 13 ∧ j ≠ 21 ∧ j ≠ 29 := by
    simpa [keyPositions] using hj
  have key : ∀ p : Nat, j ≠ p → (raw ^^^ (1 <<< j)).testBit p = raw.testBit p := by
    intro p hjp
    rw [Nat.one_shiftLeft, Nat.testBit_xor, Nat.testBit_two_pow_of_ne hjp, Bool.xor_false]
  rw [decode_eq, decode_eq, key 1 hns.1, key 9 hns.2.1, key 17 hns.2.2.1, key 25 hns.2.2.2.1,
    key 5 hns.2.2.2.2.1, key 13 hns.2.2.2.2.2.1, key 21 hns.2.2.2.2.2.2.1,
    key 29 hns.2.2.2.2.2.2.2]

theorem scan_decode_zero_of (raw : Nat)
    (h : ∀ i, i < 8 → raw.testBit (keyPositions.getD i 0) = false) :
    tm1638_scan_decode raw = 0 := by
  have e0 : raw.testBit 1 = false := h 0 (by omega)
  have e1 : raw.testBit 9 = false := h 1 (by omega)
  have e2 : raw.testBit 17 = false := h 2 (by omega)
  have e3 : raw.testBit 25 = false := h 3 (by omega)
  have e4 : raw.testBit 5 = false := h 4 (by omega)
  have e5 : raw.testBit 13 = false := h 5 (by omega)
  have e6 : raw.testBit 21 = false := h 6 (by omega)
  have e7 : raw.testBit 29 = false := h 7 (by omega)
  rw [decode_eq, e0, e1, e2, e3, e4, e5, e6, e7]
  rfl

/-- C1: the decoded pressed-key mask is a pure function of exactly the raw
bit positions 1, 9, 17, 25, 5, 13, 21, 29: result bit i equals the raw bit
at the i-th designated position, flipping any raw bit outside those eight
positions leaves the result unchanged, and the result is zero whenever none
of the designated positions is set. -/
theorem scan_buttons_decode_pure (raw : Nat) :
    (∀ i, i < 8 → (tm1638_scan_decode raw).testBit i = raw.testBit (keyPositions.getD i 0)) ∧
    (∀ j, j < 32 → j ∉ keyPositions →
      tm1638_scan_decode (raw ^^^ (1 <<< j)) = tm1638_scan_decode raw) ∧
    ((∀ i, i < 8 → raw.testBit (keyPositions.getD i 0) = false) → tm1638_scan_decode raw = 0) :=
  ⟨fun i hi => scan_decode_testBit raw i hi,
   fun j _ hj => scan_decode_flip raw j hj,
   fun h => scan_decode_zero_of raw h⟩

/-- Witness for C1 at concrete inputs: raw word 2 has designated bit 1 set,
flipping undesignated bit 0 changes nothing, and the all-zero word decodes
to the empty mask. -/
theorem scan_buttons_decode_pure_witness :
    (tm1638_scan_decode 2).testBit 0 = (2 : Nat).testBit (keyPositions.getD 0 0) ∧
    tm1638_scan_decode (2 ^^^ (1 <<< 0)) = tm1638_scan_decode 2 ∧
    tm1638_scan_decode 0 = 0 :=
  ⟨(scan_buttons_decode_pure 2).1 0 (by decide),
   (scan_buttons_decode_pure 2).2.1 0 (by decide) (by decide),
   (scan_buttons_decode_pure 0).2.2 (by decide)⟩

/-- C2 counter-evidence: for the captured scan mask 3 (keys S1 and S2
pressed simultaneously) the conversion of tm1638_read_key_blocking returns
1, the lowest pressed key, not the 0 promised by the function's own
documentation. -/
theorem read_key_blocking_multi_press :
    (tm1638_read_key_blocking (TM1638.mk 0) 3).2 = 1 ∧
    (tm1638_read_key_blocking (TM1638.mk 0) 3).2 ≠ 0 := by
  constructor
  · rfl
  · decide

/-- C3 counter-evidence: laying out the string 12.34, the cell holding the
character 2 (the one immediately preceding the dot) has its dot flag clear,
while the dot flag is set on the cell holding 3, the character immediately
following the dot. -/
theorem display_txt_dot_attaches_to_following_char :
    (tm1638_display_txt_layout "12.34".data).1.getD 5 ' ' = '2' ∧
    (tm1638_display_txt_layout "12.34".data).2.getD 5 false = false ∧
    (tm1638_display_txt_layout "12.34".data).1.getD 6 ' ' = '3' ∧
    (tm1638_display_txt_layout "12.34".data).2.getD 6 false = true := by
  refine ⟨?_, ?_, ?_, ?_⟩ <;> decide

/-- C4: laying out 12.34 on the 8-cell display yields the characters
1, 2, 3, 4 right-aligned in the last four cells, every earlier cell blank,
and the dot flag set on exactly the cell holding 3. -/
theorem display_txt_layout_12_34 :
    tm1638_display_txt_layout "12.34".data =
      ([' ', ' ', ' ', ' ', '1', '2', '3', '4'],
       [false, false, false, false, false, false, true, false]) := by
  decide

/-- C6: for every brightness argument, set-brightness transmits exactly one
single-byte frame whose byte is 0x88 OR the argument clamped to 7, and that
command byte always has the display-on bit (bit 3) set. -/
theorem set_brightness_command (tm : TM1638) (b : Nat) :
    (tm1638_set_brightness tm b).2 = [[0x88 ||| min b 7]] ∧
    (0x88 ||| min b 7).testBit 3 = true := by
  constructor
  · show [[CMD_DISPLAY_CTRL ||| DISPLAY_ON_MASK ||| (if b > 7 then 7 else b)]] =
      [[0x88 ||| min b 7]]
    have hm : (if b > 7 then 7 else b) = min b 7 := by
      split <;> omega
    rw [hm]
    rfl
  · rw [Nat.testBit_lor]
    have h136 : (0x88 : Nat).testBit 3 = true := by decide
    rw [h136, Bool.true_or]

/-- C7: for positions 1..8 the segment register address is the address
marker plus twice (position minus one) and is even, the LED register
address is the segment address plus one, and the eight address pairs cover
the sixteen-register space 0xC0..0xCF exactly once. -/
theorem segment_led_address_partition (p : Nat) (hp1 : 1 ≤ p) (hp2 : p ≤ 8) :
    tm1638_segment_address p = CMD_ADDRESS_SET + 2 * (p - 1) ∧
    tm1638_segment_address p % 2 = 0 ∧
    tm1638_led_address p = tm1638_segment_address p + 1 ∧
    (List.range 8).flatMap
        (fun k => [tm1638_segment_address (k + 1), tm1638_led_address (k + 1)]) =
      List.range' 0xC0 16 := by
  refine ⟨rfl, ?_, ?_, by decide⟩
  · unfold tm1638_segment_address CMD_ADDRESS_SET
    omega
  · unfold tm1638_led_address tm1638_segment_address CMD_ADDRESS_SET
    omega

/-- Witness for C7 at position 3: segment address 0xC4, LED address 0xC5. -/
theorem segment_led_address_partition_witness :
    tm1638_segment_address 3 % 2 = 0 ∧ tm1638_led_address 3 = tm1638_segment_address 3 + 1 :=
  ⟨(segment_led_address_partition 3 (by decide) (by decide)).2.1,
   (segment_led_address_partition 3 (by decide) (by decide)).2.2.1⟩

/-- C8: for a position outside 1..8, set-segment, set-LED and display-char
transmit nothing and leave the handle unchanged. -/
theorem invalid_position_noop (tm : TM1638) (p data : Nat) (c : Char) (dot is_on : Bool)
    (hp : p < 1 ∨ p > 8) :
    tm1638_set_segment tm p data = (tm, []) ∧
    tm1638_set_led tm p is_on = (tm, []) ∧
    tm1638_display_char tm p c dot = (tm, []) := by
  refine ⟨?_, ?_, ?_⟩
  · unfold tm1638_set_segment
    rw [if_pos hp]
  · unfold tm1638_set_led
    rw [if_pos hp]
  · unfold tm1638_display_char
    rw [if_pos hp]

/-- Witness for C8 at the out-of-range position 9. -/
theorem invalid_position_noop_witness :
    tm1638_set_segment (TM1638.mk 3) 9 0x7f = (TM1638.mk 3, []) ∧
    tm1638_set_led (TM1638.mk 3) 9 true = (TM1638.mk 3, []) ∧
    tm1638_display_char (TM1638.mk 3) 9 'A' false = (TM1638.mk 3, []) :=
  invalid_position_noop (TM1638.mk 3) 9 0x7f 'A' false true (by decide)

theorem set_segment_fst (tm : TM1638) (p data : Nat) : (tm1638_set_segment tm p data).1 = tm := by
  unfold tm1638_set_segment
  split <;> rfl

theorem set_led_fst (tm : TM1638) (p : Nat) (is_on : Bool) :
    (tm1638_set_led tm p is_on).1 = tm := by
  unfold tm1638_set_led
  split <;> rfl

theorem display_char_fst (tm : TM1638) (p : Nat) (c : Char) (dot : Bool) :
    (tm1638_display_char tm p c dot).1 = tm := by
  unfold tm1638_display_char
  split
  · rfl
  · exact set_segment_fst tm p _

/-- C9: after init or set-brightness with any argument the stored brightness
is in 0..7, every public operation preserves that bound, and the two paths
normalize out-of-range input differently: init masks (init with 8 stores 0)
while set-brightness clamps (set-brightness with 8 stores 7). -/
theorem brightness_invariant (tm : TM1638) (b p data raw buttons : Nat) (c : Char)
    (dot is_on : Bool) (s : List Char) (htm : tm.brightness ≤ 7) :
    (tm1638_init tm b).1.brightness ≤ 7 ∧
    (tm1638_set_brightness tm b).1.brightness ≤ 7 ∧
    (tm1638_init tm 8).1.brightness = 0 ∧
    (tm1638_set_brightness tm 8).1.brightness = 7 ∧
    (tm1638_display_clear tm).1.brightness ≤ 7 ∧
    (tm1638_display_char tm p c dot).1.brightness ≤ 7 ∧
    (tm1638_display_txt tm s).1.brightness ≤ 7 ∧
    (tm1638_set_led tm p is_on).1.brightness ≤ 7 ∧
    (tm1638_set_segment tm p data).1.brightness ≤ 7 ∧
    (tm1638_scan_buttons tm raw).1.brightness ≤ 7 ∧
    (tm1638_read_key_blocking tm buttons).1.brightness ≤ 7 := by
  have hand : b &&& DISPLAY_BRIGHTNESS_MASK ≤ 7 := Nat.and_le_right
  refine ⟨?_, ?_, rfl, rfl, htm, ?_, htm, ?_, ?_, htm, htm⟩
  · show (if (b &&& DISPLAY_BRIGHTNESS_MASK) > 7 then 7
      else (b &&& DISPLAY_BRIGHTNESS_MASK)) ≤ 7
    split <;> omega
  · show (if b > 7 then 7 else b) ≤ 7
    split <;> omega
  · rw [display_char_fst]
    exact htm
  · rw [set_led_fst]
    exact htm
  · rw [set_segment_fst]
    exact htm

/-- Witness for C9 at a handle with brightness 3 and concrete arguments. -/
theorem brightness_invariant_witness :
    (tm1638_init (TM1638.mk 3) 9).1.brightness ≤ 7 ∧
    (tm1638_set_brightness (TM1638.mk 3) 9).1.brightness ≤ 7 ∧
    (tm1638_init (TM1638.mk 3) 8).1.brightness = 0 ∧
    (tm1638_set_brightness (TM1638.mk 3) 8).1.brightness = 7 :=
  ⟨(brightness_invariant (TM1638.mk 3) 9 1 0 0 0 'A' false true [] (by decide)).1,
   (brightness_invariant (TM1638.mk 3) 9 1 0 0 0 'A' false true [] (by decide)).2.1,
   (brightness_invariant (TM1638.mk 3) 9 1 0 0 0 'A' false true [] (by decide)).2.2.1,
   (brightness_invariant (TM1638.mk 3) 9 1 0 0 0 'A' false true [] (by decide)).2.2.2.1⟩

set_option maxRecDepth 8192 in
theorem key_convert_bounds : ∀ b, b < 256 → b ≠ 0 →
    1 ≤ tm1638_key_convert b ∧ tm1638_key_convert b ≤ 8 := by
  decide

theorem scan_decode_lt_256 (raw : Nat) : tm1638_scan_decode raw < 256 := by
  rw [decode_eq]
  generalize raw.testBit 1 = b0
  generalize raw.testBit 9 = b1
  generalize raw.testBit 17 = b2
  generalize raw.testBit 25 = b3
  generalize raw.testBit 5 = b4
  generalize raw.testBit 13 = b5
  generalize raw.testBit 21 = b6
  generalize raw.testBit 29 = b7
  revert b0 b1 b2 b3 b4 b5 b6 b7
  decide

/-- C10: whenever the press-detection loop hands a captured mask to the
conversion loop it is a non-zero 8-bit value (the scan decode always yields
a value below 256 and the polling loop exits only on non-zero), and on any
such mask the conversion returns a key number in 1..8, so the trailing
return 0 after the loop is never taken. -/
theorem read_key_blocking_in_range (tm : TM1638) (buttons raw : Nat)
    (h0 : buttons ≠ 0) (hlt : buttons < 256) :
    (1 ≤ (tm1638_read_key_blocking tm buttons).2 ∧
      (tm1638_read_key_blocking tm buttons).2 ≤ 8) ∧
    tm1638_scan_decode raw < 256 :=
  ⟨key_convert_bounds buttons hlt h0, scan_decode_lt_256 raw⟩

/-- Witness for C10 at the captured mask 4 and raw word 2. -/
theorem read_key_blocking_in_range_witness :
    (1 ≤ (tm1638_read_key_blocking (TM1638.mk 0) 4).2 ∧
      (tm1638_read_key_blocking (TM1638.mk 0) 4).2 ≤ 8) ∧
    tm1638_scan_decode 2 < 256 :=
  read_key_blocking_in_range (TM1638.mk 0) 4 2 (by decide) (by decide)

/-- Fill device of the layout loop: the effect of txtLoop on the display
buffer when the input contains no dot, writing the characters backwards
from the given index. -/
def fillRev : List Char → List Char → Int → List Char
  | [], buf, _ => buf
  | c :: rest, buf, idx => if idx < 0 then buf else fillRev rest (buf.set idx.toNat c) (idx - 1)

theorem fillRev_neg (cs : List Char) (buf : List Char) (idx : Int) (h : idx < 0) :
    fillRev cs buf idx = buf := by
  cases cs with
  | nil => rfl
  | cons c rest =>
    simp only [fillRev]
    rw [if_pos h]

theorem txtLoop_no_dot (cs : List Char) (buf : List Char) (dots : List Bool) (idx : Int)
    (h : ∀ c ∈ cs, c ≠ '.') :
    txtLoop cs buf dots idx = (fillRev cs buf idx, dots) := by
  induction cs generalizing buf dots idx with
  | nil => rfl
  | cons c rest ih =>
    simp only [txtLoop, fillRev]
    by_cases hneg : idx < 0
    · rw [if_pos hneg, if_pos hneg]
    · rw [if_neg hneg, if_neg hneg, if_neg (h c (List.mem_cons_self c rest))]
      exact ih _ _ _ (fun x hx => h x (List.mem_cons_of_mem c hx))

theorem drop_set_eq_cons (l : List Char) (k : Nat) (c : Char) (h : k < l.length) :
    (l.set k c).drop k = c :: l.drop (k + 1) := by
  induction l generalizing k with
  | nil => simp at h
  | cons a t ih =>
    cases k with
    | zero => rfl
    | succ k =>
      simp only [List.set_cons_succ, List.drop_succ_cons]
      exact ih k (by simpa using h)

theorem fillRev_spec (cs : List Char) (buf : List Char) (idx : Int) (h0 : 0 ≤ idx)
    (hlt : idx.toNat < buf.length) (hcs : idx.toNat + 1 ≤ cs.length) :
    fillRev cs buf idx = (cs.take (idx.toNat + 1)).reverse ++ buf.drop (idx.toNat + 1) := by
  induction cs generalizing buf idx with
  | nil => simp at hcs
  | cons c rest ih =>
    simp only [List.length_cons] at hcs
    simp only [fillRev]
    rw [if_neg (by omega : ¬ idx < 0)]
    by_cases hz : idx = 0
    · subst hz
      rw [fillRev_neg _ _ _ (by omega)]
      show buf.set 0 c = ((c :: rest).take 1).reverse ++ buf.drop 1
      have hset : buf.set 0 c = c :: buf.drop 1 := by
        have hd := drop_set_eq_cons buf 0 c (by omega)
        simpa using hd
      rw [hset]
      rfl
    · have hrec := ih (buf.set idx.toNat c) (idx - 1) (by omega)
        (by rw [List.length_set]; omega) (by omega)
      rw [hrec]
      have hk : (idx - 1).toNat + 1 = idx.toNat := by omega
      rw [hk, drop_set_eq_cons buf idx.toNat c hlt]
      have ht : (c :: rest).take (idx.toNat + 1) = c :: rest.take idx.toNat := by
        have hn : idx.toNat + 1 = idx.toNat + 1 := rfl
        cases hx : idx.toNat + 1 with
        | zero => omega
        | succ m =>
          have : m = idx.toNat := by omega
          rw [this]
          rfl
      rw [ht]
      simp

theorem layout_small (s : List Char) (h : s.length ≤ 127) :
    tm1638_display_txt_layout s =
      txtLoop s.reverse (List.replicate 8 ' ') (List.replicate 8 false) 7 := by
  by_cases h0 : s.length = 0
  · have hnil : s = [] := List.length_eq_zero.mp h0
    subst hnil
    rfl
  · simp only [tm1638_display_txt_layout, int8_wrap]
    rw [if_neg (by omega : ¬ ((s.length : Int) % 256 ≥ 128))]
    rw [if_neg (by omega : ¬ (((s.length : Int) % 256 - 1) % 256 ≥ 128))]
    rw [if_neg (by omega : ¬ (((s.length : Int) % 256 - 1) % 256 < 0))]
    have e3 : (((s.length : Int) % 256 - 1) % 256).toNat + 1 = s.length := by omega
    rw [e3, List.take_length]

theorem layout_trunc (s : List Char) (hd : '.' ∉ s) (h9 : 9 ≤ s.length) (h127 : s.length ≤ 127) :
    (tm1638_display_txt_layout s).1 = s.drop (s.length - 8) := by
  rw [layout_small s h127]
  have hnd : ∀ c ∈ s.reverse, c ≠ '.' := by
    intro c hc he
    rw [List.mem_reverse] at hc
    exact hd (he ▸ hc)
  rw [txtLoop_no_dot _ _ _ _ hnd]
  show fillRev s.reverse (List.replicate 8 ' ') 7 = s.drop (s.length - 8)
  rw [fillRev_spec s.reverse (List.replicate 8 ' ') 7 (by omega) (by simp)
    (by rw [List.length_reverse]; omega)]
  show (s.reverse.take 8).reverse ++ (List.replicate 8 ' ').drop 8 = s.drop (s.length - 8)
  rw [List.take_reverse, List.reverse_reverse]
  simp

theorem getD_set_ne (l : List Char) (k j : Nat) (c : Char) (h : j ≠ k) :
    (l.set k c).getD j ' ' = l.getD j ' ' := by
  rw [List.getD_eq_getElem?_getD, List.getD_eq_getElem?_getD, List.getElem?_set_ne (Ne.symm h)]

theorem txtLoop_prefix_blank (cs : List Char) (j : Nat) :
    ∀ (buf : List Char) (dots : List Bool) (idx : Int),
    (j : Int) + (cs.countP (fun c => c != '.')) ≤ idx →
    ((txtLoop cs buf dots idx).1).getD j ' ' = buf.getD j ' ' := by
  induction cs with
  | nil => intro buf dots idx h; rfl
  | cons c rest ih =>
    intro buf dots idx h
    simp only [txtLoop]
    by_cases hneg : idx < 0
    · rw [if_pos hneg]
    · rw [if_neg hneg]
      by_cases hc : c = '.'
      · rw [if_pos hc]
        have hcnt : (c :: rest).countP (fun x => x != '.') =
            rest.countP (fun x => x != '.') := by
          simp [List.countP_cons, hc]
        rw [hcnt] at h
        exact ih _ _ _ h
      · rw [if_neg hc]
        have hcnt : (c :: rest).countP (fun x => x != '.') =
            rest.countP (fun x => x != '.') + 1 := by
          simp [List.countP_cons, hc]
        rw [hcnt] at h
        rw [ih (buf.set idx.toNat c) dots (idx - 1) (by omega)]
        exact getD_set_ne buf idx.toNat j c (by omega)

theorem layout_blank_prefix (s : List Char) (h127 : s.length ≤ 127) (j : Nat)
    (hj : j + s.countP (fun c => c != '.') < 8) :
    ((tm1638_display_txt_layout s).1).getD j ' ' = ' ' := by
  rw [layout_small s h127]
  rw [txtLoop_prefix_blank s.reverse j (List.replicate 8 ' ') (List.replicate 8 false) 7
    (by rw [List.countP_reverse]; omega)]
  rw [List.getD_eq_getElem?_getD, List.getElem?_replicate]
  split <;> rfl

set_option maxRecDepth 8192 in
/-- C5 counterexample: a dot-free string of 129 characters is not truncated
to its last 8 characters; the int8_t narrowing of strlen makes the initial
string index negative, the layout loop never runs, and the display stays
blank. -/
theorem display_txt_no_trunc_at_129 :
    ¬ ((tm1638_display_txt_layout (List.replicate 129 '1')).1 =
      (List.replicate 129 '1').drop (129 - 8)) := by
  decide

/-- C5 (amended to strings of at most 127 characters, the range in which
the int8_t length does not overflow): a dot-free input of 9 or more
characters is truncated from the left to its last 8 characters, the string
123456789 fills the cells with 23456789, and any input whose count of
visible (non-dot) characters leaves leading cells unfilled leaves those
cells blank. -/
theorem display_txt_truncation (s : List Char) (h127 : s.length ≤ 127) :
    ('.' ∉ s → 9 ≤ s.length → (tm1638_display_txt_layout s).1 = s.drop (s.length - 8)) ∧
    (∀ j, j + s.countP (fun c => c != '.') < 8 →
      ((tm1638_display_txt_layout s).1).getD j ' ' = ' ') ∧
    (tm1638_display_txt_layout "123456789".data).1 = "23456789".data :=
  ⟨fun hd h9 => layout_trunc s hd h9 h127,
   fun j hj => layout_blank_prefix s h127 j hj,
   by decide⟩

/-- Witness for C5 at the 9-character string 123456789 and the 5-character
string 12345. -/
theorem display_txt_truncation_witness :
    (tm1638_display_txt_layout "123456789".data).1 = "123456789".data.drop (9 - 8) ∧
    ((tm1638_display_txt_layout "12345".data).1).getD 0 ' ' = ' ' :=
  ⟨(display_txt_truncation "123456789".data (by decide)).1 (by decide) (by decide),
   (display_txt_truncation "12345".data (by decide)).2.1 0 (by decide)⟩
